import Mathlib

/-!
Shallow embedding of `wbcd_phase1.py`: the archive locator (`find_data_member`),
the loader/normalizer (`load_wbcd_from_zip`) and the preprocessor (`preprocess`).
Tables are lists of named columns of cells; pandas operations used by the source
are embedded by their documented semantics, element-wise on cells.  Per the data
model of the design document, column labels of a table are unique; the embedding
is faithful under that assumption.
-/

/-- A single pandas cell: a (rational) number, a string, or the absent
marker (NaN / pd.NA). -/
inductive Cell where
  | num (q : ℚ)
  | str (s : String)
  | na
deriving DecidableEq

/-- A pandas DataFrame: an ordered list of labelled columns. -/
structure Table where
  cols : List (String × List Cell)
deriving DecidableEq

/-- `df.columns`. -/
def colNames (t : Table) : List String := t.cols.map Prod.fst

/-- `len(df)`: the number of rows (length of the first column). -/
def nrows (t : Table) : Nat :=
  match t.cols with
  | [] => 0
  | c :: _ => c.2.length

/-- `df[name]`: the first column carrying the label (labels are unique). -/
def getCol (t : Table) (nm : String) : Option (List Cell) :=
  (t.cols.find? (fun p => p.1 == nm)).map Prod.snd

/-- `df[name] = cs`: replace the cells of the column labelled `nm`. -/
def setCol (t : Table) (nm : String) (cs : List Cell) : Table :=
  ⟨t.cols.map (fun p => if p.1 = nm then (p.1, cs) else p)⟩

/-- `s2.endswith(s1)` on raw strings (used for the directory test `n.endswith("/")`). -/
def endsWithStr (nm suf : String) : Bool :=
  suf.toList.isSuffixOf nm.toList

/-- `nm.lower().endswith(suf)`: case-insensitive suffix test of `find_data_member`
(the probed suffixes are already lower-case in the source). -/
def lowerEndsWith (nm suf : String) : Bool :=
  suf.toList.isSuffixOf (nm.toList.map Char.toLower)

/-- `find_data_member` (lines 39-63): among the non-directory members, return the
first whose lowered name ends in `wdbc.data` (no header), else the first ending in
`.csv` (header), else the first ending in `.data` (no header); raise
`FileNotFoundError` when none matches. -/
def find_data_member (names : List String) : Except Unit (String × Bool) :=
  let files := names.filter (fun n => !endsWithStr n "/")
  match files.find? (fun nm => lowerEndsWith nm "wdbc.data") with
  | some nm => .ok (nm, false)
  | none =>
    match files.find? (fun nm => lowerEndsWith nm ".csv") with
    | some nm => .ok (nm, true)
    | none =>
      match files.find? (fun nm => lowerEndsWith nm ".data") with
      | some nm => .ok (nm, false)
      | none => .error ()

/-- C2: on an archive listing without directory entries, the locator returns the
first member (in listing order) whose name case-insensitively ends in `wdbc.data`
with `hasHeader = false`; otherwise the first ending in `.csv` with
`hasHeader = true`; otherwise the first ending in `.data` with `hasHeader = false`;
and it raises the not-found error iff no member matches any of the three rules. -/
theorem find_data_member_priority (files : List String)
    (hdir : ∀ n ∈ files, endsWithStr n "/" = false) :
    (∀ nm, files.find? (fun s => lowerEndsWith s "wdbc.data") = some nm →
      find_data_member files = .ok (nm, false)) ∧
    (∀ nm, files.find? (fun s => lowerEndsWith s "wdbc.data") = none →
      files.find? (fun s => lowerEndsWith s ".csv") = some nm →
      find_data_member files = .ok (nm, true)) ∧
    (∀ nm, files.find? (fun s => lowerEndsWith s "wdbc.data") = none →
      files.find? (fun s => lowerEndsWith s ".csv") = none →
      files.find? (fun s => lowerEndsWith s ".data") = some nm →
      find_data_member files = .ok (nm, false)) ∧
    (find_data_member files = .error () ↔
      ∀ nm ∈ files, lowerEndsWith nm "wdbc.data" = false ∧
        lowerEndsWith nm ".csv" = false ∧ lowerEndsWith nm ".data" = false) := by
  have hfiles : files.filter (fun n => !endsWithStr n "/") = files := by
    apply List.filter_eq_self.mpr
    intro a ha
    simp [hdir a ha]
  constructor
  · intro nm h1
    simp only [find_data_member, hfiles, h1]
  constructor
  · intro nm h1 h2
    simp only [find_data_member, hfiles, h1, h2]
  constructor
  · intro nm h1 h2 h3
    simp only [find_data_member, hfiles, h1, h2, h3]
  · constructor
    · intro h nm hnm
      simp only [find_data_member, hfiles] at h
      rcases e1 : files.find? (fun s => lowerEndsWith s "wdbc.data") with _ | v1
      · rcases e2 : files.find? (fun s => lowerEndsWith s ".csv") with _ | v2
        · rcases e3 : files.find? (fun s => lowerEndsWith s ".data") with _ | v3
          · refine ⟨?_, ?_, ?_⟩
            · have := List.find?_eq_none.mp e1 nm hnm
              simpa using this
            · have := List.find?_eq_none.mp e2 nm hnm
              simpa using this
            · have := List.find?_eq_none.mp e3 nm hnm
              simpa using this
          · rw [e1, e2, e3] at h
            exact absurd h (by simp)
        · rw [e1, e2] at h
          exact absurd h (by simp)
      · rw [e1] at h
        exact absurd h (by simp)
    · intro h
      simp only [find_data_member, hfiles]
      have e1 : files.find? (fun s => lowerEndsWith s "wdbc.data") = none :=
        List.find?_eq_none.mpr (fun x hx => by simp [(h x hx).1])
      have e2 : files.find? (fun s => lowerEndsWith s ".csv") = none :=
        List.find?_eq_none.mpr (fun x hx => by simp [(h x hx).2.1])
      have e3 : files.find? (fun s => lowerEndsWith s ".data") = none :=
        List.find?_eq_none.mpr (fun x hx => by simp [(h x hx).2.2])
      rw [e1, e2, e3]

/-- C2 witness: on a concrete listing the locator picks the `WDBC.data` member,
case-insensitively, with `hasHeader = false`. -/
theorem find_data_member_priority_witness :
    find_data_member ["wdbc.names", "sub/WDBC.data", "other.csv"] = .ok ("sub/WDBC.data", false) :=
  (find_data_member_priority ["wdbc.names", "sub/WDBC.data", "other.csv"]
    (by decide)).1 "sub/WDBC.data" (by decide)

/-! ### String normalization and numeric parsing -/

/-- Python `str.strip()`: drop leading and trailing whitespace. -/
def trimChars (cs : List Char) : List Char :=
  ((cs.dropWhile Char.isWhitespace).reverse.dropWhile Char.isWhitespace).reverse

/-- Line 85: `c.strip().lower().replace(" ", "_")` — the column-name normalizer. -/
def normName (s : String) : String :=
  String.mk (((trimChars s.toList).map Char.toLower).map (fun c => if c = ' ' then '_' else c))

/-- Numeric value of a digit string (most significant digit first). -/
def natOfDigits (ds : List Char) : Nat :=
  ds.foldl (fun a c => 10 * a + (c.toNat - 48)) 0

/-- Optional exponent tail of a numeric literal: empty, or `e`/`E` with an
optionally signed digit string. -/
def parseExpTail (q : ℚ) : List Char → Option ℚ
  | [] => some q
  | c :: rest =>
    if c = 'e' ∨ c = 'E' then
      let p : Bool × List Char :=
        match rest with
        | '+' :: r => (false, r)
        | '-' :: r => (true, r)
        | r => (false, r)
      if p.2 ≠ [] ∧ p.2.all Char.isDigit then
        let e := natOfDigits p.2
        some (if p.1 then q / 10 ^ e else q * 10 ^ e)
      else none
    else none

/-- Mantissa of a numeric literal: digits with an optional decimal point;
returns its value and the unconsumed tail. -/
def parseMantissa (cs : List Char) : Option (ℚ × List Char) :=
  let ip := cs.takeWhile Char.isDigit
  let r1 := cs.dropWhile Char.isDigit
  match r1 with
  | '.' :: r2 =>
    let fp := r2.takeWhile Char.isDigit
    let r3 := r2.dropWhile Char.isDigit
    if ip.isEmpty && fp.isEmpty then none
    else some ((natOfDigits ip : ℚ) + (natOfDigits fp : ℚ) / 10 ^ fp.length, r3)
  | _ => if ip.isEmpty then none else some ((natOfDigits ip : ℚ), r1)

/-- Numeric parsing as performed by `pandas.to_numeric` / `read_csv` on a string
field: optional surrounding whitespace and sign, decimal mantissa, optional
exponent.  Non-finite spellings (`inf`, `nan`) are treated as unparseable; they
play no role in any claim. -/
def parseNum (s : String) : Option ℚ :=
  let cs := trimChars s.toList
  let p : Bool × List Char :=
    match cs with
    | '+' :: r => (false, r)
    | '-' :: r => (true, r)
    | r => (false, r)
  match parseMantissa p.2 with
  | none => none
  | some (q, rest) =>
    match parseExpTail q rest with
    | none => none
    | some r => some (if p.1 then -r else r)

/-! ### Loading (`pd.read_csv` with `header=None, names=COLUMN_NAMES`) -/

/-- Lines 29-37: the official UCI WDBC column names (32 columns). -/
def COLUMN_NAMES : List String :=
  ["id", "diagnosis",
   "radius_mean", "texture_mean", "perimeter_mean", "area_mean", "smoothness_mean",
   "compactness_mean", "concavity_mean", "concave_points_mean", "symmetry_mean",
   "fractal_dimension_mean",
   "radius_se", "texture_se", "perimeter_se", "area_se", "smoothness_se",
   "compactness_se", "concavity_se", "concave_points_se", "symmetry_se",
   "fractal_dimension_se",
   "radius_worst", "texture_worst", "perimeter_worst", "area_worst", "smoothness_worst",
   "compactness_worst", "concavity_worst", "concave_points_worst", "symmetry_worst",
   "fractal_dimension_worst"]

/-- The strings `pandas.read_csv` treats as missing by default. -/
def defaultNaStrings : List String :=
  ["", "#N/A", "#N/A N/A", "#NA", "-1.#IND", "-1.#QNAN", "-NaN", "-nan",
   "1.#IND", "1.#QNAN", "<NA>", "N/A", "NA", "NULL", "NaN", "None", "n/a", "nan", "null"]

/-- Conversion of one CSV field by `read_csv`: a default missing sentinel becomes
the absent marker, a numeric literal is parsed, anything else stays a string. -/
def parseField (f : String) : Cell :=
  if f ∈ defaultNaStrings then .na
  else
    match parseNum f with
    | some q => .num q
    | none => .str f

/-- Line 82, `pd.read_csv(buf, header=None, names=COLUMN_NAMES)`, modelled from
pandas' documented semantics on the comma-split rows of the member: an empty
member raises (`EmptyDataError`); a row with more fields than the first row
raises the tokenizer error (`Expected w fields, saw more`); shorter rows are
padded on the right with the absent marker; when the row width exceeds the
number of names the extra leading fields become the row index; the names are
assigned to the remaining fields positionally. -/
def readCsvNoHeader (names : List String) (rows : List (List String)) : Except Unit Table :=
  match rows with
  | [] => .error ()
  | r0 :: _ =>
    if rows.any (fun r => r0.length < r.length) then .error ()
    else
      let skip := r0.length - names.length
      .ok ⟨names.enum.map (fun p =>
        (p.2, rows.map (fun r =>
          match r.get? (skip + p.1) with
          | some f => parseField f
          | none => Cell.na)))⟩

/-! ### Schema normalization (`load_wbcd_from_zip`, lines 84-102) -/

/-- Line 85: normalize every column label. -/
def renameCols (t : Table) : Table :=
  ⟨t.cols.map (fun p => (normName p.1, p.2))⟩

/-- `df.rename(columns={old: res})`: every column labelled `old` is relabelled `res`. -/
def renameColTo (t : Table) (old res : String) : Table :=
  ⟨t.cols.map (fun p => (if p.1 = old then res else p.1, p.2))⟩

/-- Whether a cell is a number or the absent marker (not a string). -/
def isNonStr (c : Cell) : Bool :=
  match c with
  | .str _ => false
  | _ => true

/-- `pd.api.types.is_numeric_dtype(df[c])`: a parsed column has a numeric dtype
iff it holds no string (numbers and absent markers give `float64`/`int64`,
any string gives `object`). -/
def isNumericCells (cs : List Cell) : Bool :=
  cs.all isNonStr

/-- `df[c].nunique()`: number of distinct non-absent values. -/
def nuniqueCells (cs : List Cell) : Nat :=
  ((cs.filter (fun c => c != Cell.na)).dedup).length

/-- Line 97, the guarded condition
`is_numeric_dtype(df[first_col]) and df[first_col].nunique() > 0.9 * len(df)`.
The float comparison `nunique > 0.9 * len` agrees with the exact rational
comparison `10 * nunique > 9 * len` for every pair of integer counts: the float
product rounds to the exact value whenever `9 * len / 10` is integral, and
otherwise lies more than the rounding error away from every integer. -/
def idTestCond (t : Table) (first : String) : Bool :=
  match getCol t first with
  | none => false
  | some cs => isNumericCells cs && decide (10 * nuniqueCells cs > 9 * nrows t)

/-- The outcome of evaluating the identifier-heuristic condition of line 97 on
the (already renamed) table: `.ok b` when it evaluates to `b`, `.error ()` when
it raises.  On tables of the data model (unique labels, rectangular) the
evaluation never raises; `.error` is reachable only for inputs outside the
model, and line 96-100 swallows it. -/
def idTestOutcome (t : Table) : Except Unit Bool :=
  match colNames t with
  | [] => .error ()
  | first :: _ => .ok (idTestCond t first)

/-- Lines 84-102 of `load_wbcd_from_zip`, parameterized by the outcome `res` of
evaluating the identifier-heuristic condition (the body of the `try` block):
normalize the labels, raise `ValueError` when no `diagnosis` label exists, then
— unless the first label already is `id` — rename the first column to `id` when
the heuristic holds, swallowing any exception the heuristic evaluation raises. -/
def normalizeTableWith (t : Table) (res : Except Unit Bool) : Except Unit Table :=
  if "diagnosis" ∈ colNames (renameCols t) then
    match colNames (renameCols t) with
    | [] => .ok (renameCols t)
    | first :: _ =>
      if first = "id" then .ok (renameCols t)
      else
        match res with
        | .error _ => .ok (renameCols t)
        | .ok b => .ok (if b then renameColTo (renameCols t) first "id" else renameCols t)
  else .error ()

/-- Lines 84-102 of `load_wbcd_from_zip`: the schema-normalization stage. -/
def normalizeTable (t : Table) : Except Unit Table :=
  normalizeTableWith t (idTestOutcome (renameCols t))

/-- `load_wbcd_from_zip` on a headerless `.data` member (lines 78, 82-102):
parse with the official names, then normalize. -/
def load_wbcd_data (rows : List (List String)) : Except Unit Table :=
  (readCsvNoHeader COLUMN_NAMES rows).bind normalizeTable

/-! ### Preprocessing (`preprocess`, lines 104-142) -/

/-- Line 116, `df["diagnosis"].map({"M": 1, "B": 0, "m": 1, "b": 0})`:
`Series.map` sends every value that is not a key of the dict — including the
absent marker — to the absent marker. -/
def mapDiag1 (c : Cell) : Cell :=
  match c with
  | .str "M" => .num 1
  | .str "B" => .num 0
  | .str "m" => .num 1
  | .str "b" => .num 0
  | _ => .na

/-- Line 120, `Series.replace(alt_map)` element-wise: values equal to a key of
`{"Maligno": 1, "Benigno": 0, "maligno": 1, "benigno": 0}` are replaced, all
others (including the absent marker) kept. -/
def replaceAlt (c : Cell) : Cell :=
  match c with
  | .str "Maligno" => .num 1
  | .str "maligno" => .num 1
  | .str "Benigno" => .num 0
  | .str "benigno" => .num 0
  | _ => c

/-- `Series.fillna` element-wise: keep `a` unless it is absent, else take `b`. -/
def fillnaCell (a b : Cell) : Cell :=
  match a with
  | .na => b
  | _ => a

/-- Integer cast of a rational as `numpy`'s `astype(int)` performs it:
truncation toward zero. -/
def truncInt (q : ℚ) : ℤ :=
  if 0 ≤ q then ⌊q⌋ else ⌈q⌉

/-- `astype(int)` on one cell: numbers are truncated to integer, an absent
marker (and any leftover non-numeric value) raises. -/
def astypeIntCell (c : Cell) : Option Cell :=
  match c with
  | .num q => some (.num (truncInt q : ℚ))
  | _ => none

/-- `astype(int)` over a whole series: raises as soon as one cell does. -/
def astypeIntCells : List Cell → Option (List Cell)
  | [] => some []
  | c :: cs =>
    match astypeIntCell c, astypeIntCells cs with
    | some c1, some cs1 => some (c1 :: cs1)
    | _, _ => none

/-- Lines 110-122: encode the diagnosis column.  Numeric dtype: cast to int
as-is.  Otherwise map `M/B/m/b`; if any entry is left absent, fill the absent
entries from the `alt_map`-replacement of the *already mapped* series (the
faithful translation of line 120, where `df["diagnosis"]` has been rebound to
the mapped series by line 116); finally cast to int, raising if anything is
still absent. -/
def encodeDiagCells (cs : List Cell) : Option (List Cell) :=
  if isNumericCells cs then
    astypeIntCells cs
  else
    let s1 := cs.map mapDiag1
    let s2 := if s1.any (fun c => c == Cell.na)
              then s1.map (fun c => fillnaCell c (replaceAlt c))
              else s1
    astypeIntCells s2

/-- Lines 110-122 on the table: `df["diagnosis"]` raises `KeyError` when the
label is missing; otherwise the encoded cells are assigned back to the column
(mutating the caller's object in place). -/
def encodeDiag (t : Table) : Option Table :=
  (getCol t "diagnosis").bind
    (fun cs => (encodeDiagCells cs).map (fun cs1 => setCol t "diagnosis" cs1))

/-- Lines 124-133: if the first column is labelled `id`, drop every `id` column;
otherwise drop every column labelled `id` or `unnamed: 0` (the literal of line
131, with a space). -/
def dropIdCols (t : Table) : Table :=
  match colNames t with
  | [] => t
  | first :: _ =>
    if first = "id" then ⟨t.cols.filter (fun p => p.1 != "id")⟩
    else
      if ((colNames t).filter (fun c => c == "id" || c == "unnamed: 0")).isEmpty then t
      else ⟨t.cols.filter (fun p => !(p.1 == "id" || p.1 == "unnamed: 0"))⟩

/-- Line 136, `df.replace({"?": NA, "NA": NA, "null": NA, "None": NA})`
element-wise: a cell equal to one of the four sentinel strings becomes the
absent marker, every other cell is kept. -/
def replaceSentinelCell (c : Cell) : Cell :=
  match c with
  | .str s => if s = "?" || s = "NA" || s = "null" || s = "None" then .na else c
  | _ => c

/-- Line 136 on the whole table (a fresh table, `replace` copies). -/
def replaceSentinels (t : Table) : Table :=
  ⟨t.cols.map (fun p => (p.1, p.2.map replaceSentinelCell))⟩

/-- Lines 139-140, `pd.to_numeric(df[c], errors="coerce")` on one cell: numbers
and absent markers are kept, strings are parsed, an unparseable string degrades
to the absent marker — coercion itself never raises. -/
def toNumericCell (c : Cell) : Cell :=
  match c with
  | .num q => .num q
  | .na => .na
  | .str s =>
    match parseNum s with
    | some q => .num q
    | none => .na

/-- Lines 138-140: coerce every column except `diagnosis`. -/
def coerceFeatures (t : Table) : Table :=
  ⟨t.cols.map (fun p => if p.1 = "diagnosis" then p else (p.1, p.2.map toNumericCell))⟩

/-- `preprocess` (lines 104-142) together with the state of the caller's table
object when the call returns.  The diagnosis assignments of lines 112-122 write
into the caller's object; every later stage rebinds `df` to a fresh table
(`drop`, `replace` and the coercion assignments act on those copies), so the
caller's object ends up exactly as `encodeDiag` leaves it. -/
def preprocessRun (t : Table) : Option (Table × Table) :=
  (encodeDiag t).map (fun t1 => (coerceFeatures (replaceSentinels (dropIdCols t1)), t1))

/-- `preprocess` (lines 104-142): the returned clean table. -/
def preprocess (t : Table) : Option Table :=
  (preprocessRun t).map Prod.fst

/-- Running the normalization+preprocessing pipeline on an (in-memory) table,
as `main` chains lines 84-102 and `preprocess`. -/
def rerunPipeline (t : Table) : Option Table :=
  match normalizeTable t with
  | .ok u => preprocess u
  | .error _ => none

/-! ### Concrete evaluations: the failing encodings and mutation -/

/-- C1: evaluating the code at the failing input.  On a table whose diagnosis
column holds the supported strings `Maligno`/`Benigno`, `preprocess` raises: the
second mapping pass of line 120 replaces on the *already mapped* series, where
those strings have become the absent marker, so it can never fill anything, and
the final `astype(int)` fails on the absent values — contradicting the code's
own comment of lines 118-119 announcing the `Maligno`/`Benigno` correction. -/
theorem preprocess_maligno_fails :
    preprocess ⟨[("diagnosis", [Cell.str "Maligno", Cell.str "Benigno"])]⟩ = none := rfl

/-- C3 counterexample: a table whose first column is not `id` and which carries a
column literally named `unnamed:_0` (the normalized form) passes through
`preprocess` with that column intact — line 131 compares against the
un-normalized literal `unnamed: 0`, so the normalized name never matches. -/
theorem preprocess_unnamed_norm_kept :
    preprocess ⟨[("x", [Cell.num 1]), ("unnamed:_0", [Cell.num 7]),
                 ("diagnosis", [Cell.num 0])]⟩ =
      some ⟨[("x", [Cell.num 1]), ("unnamed:_0", [Cell.num 7]),
             ("diagnosis", [Cell.num 0])]⟩ ∧
    "unnamed:_0" ∈ colNames ⟨[("x", [Cell.num 1]), ("unnamed:_0", [Cell.num 7]),
                              ("diagnosis", [Cell.num 0])]⟩ := by
  constructor
  · rfl
  · decide

/-- C8 counterexample: `preprocess` mutates its input.  On a table whose
diagnosis column is `["M"]` the call returns, yet the caller's table object now
holds `diagnosis = [1]` — the label-encoding assignments of lines 112-122 write
into the shared object before `df` is ever rebound. -/
theorem preprocess_mutates_diagnosis :
    preprocessRun ⟨[("diagnosis", [Cell.str "M"])]⟩ =
      some (⟨[("diagnosis", [Cell.num 1])]⟩, ⟨[("diagnosis", [Cell.num 1])]⟩) ∧
    (⟨[("diagnosis", [Cell.num 1])]⟩ : Table) ≠ ⟨[("diagnosis", [Cell.str "M"])]⟩ := by
  constructor
  · rfl
  · decide

/-- The already-clean hypothesis of the design document (§3, Clean Table):
the diagnosis column holds only the integers 0 and 1, no `id` column is
present, and every other column is numeric-or-absent. -/
def isCleanTable (t : Table) : Bool :=
  (match getCol t "diagnosis" with
   | some cs => cs.all (fun c => c == Cell.num 0 || c == Cell.num 1)
   | none => false)
  && !((colNames t).contains "id")
  && t.cols.all (fun p => p.1 == "diagnosis" || isNumericCells p.2)

/-- C9 counterexample: an already-clean one-row table whose first column is
`diagnosis` makes the re-run of normalization+preprocessing fail outright: the
identifier heuristic fires (numeric, 1 distinct value > 0.9 rows), renames
`diagnosis` to `id`, and `preprocess` then raises a `KeyError` — so the second
run neither succeeds nor preserves the column set. -/
theorem rerun_clean_fails :
    isCleanTable ⟨[("diagnosis", [Cell.num 0]), ("radius_mean", [Cell.num 5])]⟩ = true ∧
    rerunPipeline ⟨[("diagnosis", [Cell.num 0]), ("radius_mean", [Cell.num 5])]⟩ = none := by
  constructor
  · decide
  · rfl

/-- `Except` success test. -/
def isOkE {α : Type} (e : Except Unit α) : Bool :=
  match e with
  | .ok _ => true
  | .error _ => false

/-- A member row with 31 fields (one short of the official 32). -/
def shortRow : List String :=
  ["842302", "M", "1", "2", "3", "4", "5", "6", "7", "8", "9", "10",
   "11", "12", "13", "14", "15", "16", "17", "18", "19", "20",
   "21", "22", "23", "24", "25", "26", "27", "28", "29"]

/-- C4 counterexample: a headerless member whose single row has 31 fields — not
32 — loads successfully: `read_csv` pads the missing trailing field with the
absent marker instead of raising a structural error. -/
theorem load_wbcd_short_row_ok :
    isOkE (load_wbcd_data [shortRow]) = true ∧ shortRow.length ≠ 32 := by
  constructor
  · rfl
  · decide

/-! ### Helper lemmas about the table operations -/

theorem colNames_setCol (t : Table) (nm : String) (cs : List Cell) :
    colNames (setCol t nm cs) = colNames t := by
  unfold colNames setCol
  rw [List.map_map]
  apply List.map_congr_left
  intro p _
  by_cases h : p.1 = nm <;> simp [h]

theorem find?_map_keys (f : String × List Cell → String × List Cell)
    (hf : ∀ p, (f p).1 = p.1) (l : List (String × List Cell)) (nm : String) :
    (l.map f).find? (fun p => p.1 == nm) = (l.find? (fun p => p.1 == nm)).map f := by
  rw [List.find?_map]
  have hpred : ((fun p => p.1 == nm) ∘ f) = (fun p : String × List Cell => p.1 == nm) := by
    funext p
    simp [Function.comp, hf p]
  rw [hpred]

theorem getCol_setCol_ne (t : Table) (nm nm1 : String) (cs : List Cell)
    (h : nm1 ≠ nm) : getCol (setCol t nm cs) nm1 = getCol t nm1 := by
  unfold getCol setCol
  rw [find?_map_keys _ (fun p => by by_cases hp : p.1 = nm <;> simp [hp]) _ nm1]
  cases hf : t.cols.find? (fun p => p.1 == nm1) with
  | none => rfl
  | some p =>
    have hp1 : p.1 = nm1 := by simpa using List.find?_some hf
    have : ¬p.1 = nm := by rw [hp1]; exact h
    simp [this]

theorem getCol_some_mem (t : Table) (nm : String) (cs : List Cell)
    (h : getCol t nm = some cs) : nm ∈ colNames t := by
  unfold getCol at h
  cases hf : t.cols.find? (fun p => p.1 == nm) with
  | none => rw [hf] at h; cases h
  | some p =>
    have hm := List.mem_of_find?_eq_some hf
    have hp := List.find?_some hf
    have : p.1 = nm := by simpa using hp
    subst this
    exact List.mem_map.mpr ⟨p, hm, rfl⟩

theorem find?_filter_imp {α : Type} (l : List α) (p q : α → Bool)
    (h : ∀ x, p x = true → q x = true) : (l.filter q).find? p = l.find? p := by
  induction l with
  | nil => rfl
  | cons a l ih =>
    by_cases hq : q a = true
    · rw [List.filter_cons_of_pos hq]
      cases hp : p a <;> simp [List.find?_cons, hp, ih]
    · have hp : p a = false := by
        cases hpa : p a
        · rfl
        · exact absurd (h a hpa) hq
      rw [List.filter_cons_of_neg (by simp [hq])]
      simp [List.find?_cons, hp, ih]

theorem colNames_replaceSentinels (t : Table) :
    colNames (replaceSentinels t) = colNames t := by
  unfold colNames replaceSentinels
  rw [List.map_map]
  rfl

theorem getCol_replaceSentinels (t : Table) (nm : String) :
    getCol (replaceSentinels t) nm =
      (getCol t nm).map (fun cs => cs.map replaceSentinelCell) := by
  unfold getCol replaceSentinels
  rw [List.find?_map]
  cases hf : t.cols.find? ((fun p => p.1 == nm) ∘ fun p => (p.1, p.2.map replaceSentinelCell)) with
  | none =>
    have : t.cols.find? (fun p => p.1 == nm) = none := hf
    rw [this]
    rfl
  | some p =>
    have : t.cols.find? (fun p => p.1 == nm) = some p := hf
    rw [this]
    rfl

theorem colNames_coerceFeatures (t : Table) :
    colNames (coerceFeatures t) = colNames t := by
  unfold colNames coerceFeatures
  rw [List.map_map]
  apply List.map_congr_left
  intro p _
  by_cases h : p.1 = "diagnosis" <;> simp [h]

theorem getCol_coerceFeatures_ne (t : Table) (nm : String) (h : nm ≠ "diagnosis") :
    getCol (coerceFeatures t) nm = (getCol t nm).map (fun cs => cs.map toNumericCell) := by
  unfold getCol coerceFeatures
  rw [find?_map_keys _ (fun p => by by_cases hp : p.1 = "diagnosis" <;> simp [hp]) _ nm]
  cases hf : t.cols.find? (fun p => p.1 == nm) with
  | none => rfl
  | some p =>
    have hp1 : p.1 = nm := by simpa using List.find?_some hf
    have : ¬p.1 = "diagnosis" := by rw [hp1]; exact h
    simp [this]

theorem getCol_dropIdCols_ne (t : Table) (nm : String)
    (h1 : nm ≠ "id") (h2 : nm ≠ "unnamed: 0") :
    getCol (dropIdCols t) nm = getCol t nm := by
  unfold dropIdCols
  split
  · rfl
  · split
    · unfold getCol
      rw [find?_filter_imp _ _ _ (fun x hx => by
        have : x.1 = nm := by simpa using hx
        simp [this, h1])]
    · split
      · rfl
      · unfold getCol
        rw [find?_filter_imp _ _ _ (fun x hx => by
          have : x.1 = nm := by simpa using hx
          simp [this, h1, h2])]

theorem nrows_renameCols (t : Table) : nrows (renameCols t) = nrows t := by
  unfold nrows renameCols
  cases t.cols <;> rfl

theorem renameCols_eq_self (t : Table) (h : ∀ nm ∈ colNames t, normName nm = nm) :
    renameCols t = t := by
  unfold renameCols
  congr 1
  have : t.cols.map (fun p => (normName p.1, p.2)) = t.cols.map id := by
    apply List.map_congr_left
    intro p hp
    have : normName p.1 = p.1 := h p.1 (List.mem_map.mpr ⟨p, hp, rfl⟩)
    simp [this]
  rw [this, List.map_id]

theorem encodeDiag_eq (t t1 : Table) (h : encodeDiag t = some t1) :
    ∃ cs cs1, getCol t "diagnosis" = some cs ∧ encodeDiagCells cs = some cs1 ∧
      t1 = setCol t "diagnosis" cs1 := by
  unfold encodeDiag at h
  cases hg : getCol t "diagnosis" with
  | none => rw [hg] at h; cases h
  | some cs =>
    rw [hg] at h
    simp only [Option.some_bind] at h
    cases he : encodeDiagCells cs with
    | none => rw [he] at h; cases h
    | some cs1 =>
      rw [he] at h
      exact ⟨cs, cs1, rfl, he, by simpa using h.symm⟩

theorem preprocess_eq (t u : Table) (h : preprocess t = some u) :
    ∃ t1, encodeDiag t = some t1 ∧
      u = coerceFeatures (replaceSentinels (dropIdCols t1)) := by
  unfold preprocess preprocessRun at h
  cases he : encodeDiag t with
  | none => rw [he] at h; cases h
  | some t1 =>
    rw [he] at h
    exact ⟨t1, rfl, by simpa using h.symm⟩

/-! ### C10: the heuristic's exceptions are swallowed -/

/-- C10: if evaluating the identifier heuristic raises (outcome `.error ()`),
lines 96-100 swallow the exception: the first column is left unrenamed and the
normalizer still returns the (label-normalized) table successfully. -/
theorem normalize_swallows_heuristic_error (t : Table) (res : Except Unit Bool)
    (hres : res = .error ()) (hdiag : "diagnosis" ∈ colNames (renameCols t)) :
    normalizeTableWith t res = .ok (renameCols t) := by
  subst hres
  unfold normalizeTableWith
  rw [if_pos hdiag]
  cases hc : colNames (renameCols t) with
  | nil => rfl
  | cons first rest =>
    by_cases hf : first = "id" <;> simp [hf]

/-- C10 witness: the hypotheses hold at a concrete table, and with a raising
heuristic outcome normalization succeeds without renaming the first column. -/
theorem normalize_swallows_heuristic_error_witness :
    "diagnosis" ∈ colNames (renameCols ⟨[("f", [Cell.num 3]), ("diagnosis", [Cell.str "M"])]⟩) ∧
    normalizeTableWith ⟨[("f", [Cell.num 3]), ("diagnosis", [Cell.str "M"])]⟩ (.error ()) =
      .ok (renameCols ⟨[("f", [Cell.num 3]), ("diagnosis", [Cell.str "M"])]⟩) :=
  ⟨by decide,
   normalize_swallows_heuristic_error ⟨[("f", [Cell.num 3]), ("diagnosis", [Cell.str "M"])]⟩
     (.error ()) rfl (by decide)⟩

/-! ### C5: the identifier heuristic -/

/-- C5: on a table whose normalized labels contain `diagnosis` and whose first
label is not `id`, the normalizer renames the first column to `id` iff its
values are all numeric and its number of distinct values exceeds 90% of the row
count; otherwise the first column keeps its name. -/
theorem normalize_id_heuristic (t : Table) (first : String) (rest : List String)
    (hnames : colNames (renameCols t) = first :: rest)
    (hdiag : "diagnosis" ∈ colNames (renameCols t))
    (hfirst : first ≠ "id")
    (cs : List Cell) (hcol : getCol (renameCols t) first = some cs) :
    normalizeTable t =
      .ok (if isNumericCells cs = true ∧ 10 * nuniqueCells cs > 9 * nrows t
           then renameColTo (renameCols t) first "id"
           else renameCols t) := by
  unfold normalizeTable normalizeTableWith idTestOutcome idTestCond
  rw [if_pos hdiag, hnames]
  dsimp only
  rw [hcol]
  dsimp only
  rw [if_neg hfirst, nrows_renameCols]
  by_cases hcond : isNumericCells cs = true ∧ 10 * nuniqueCells cs > 9 * nrows t
  · rw [if_pos hcond]
    simp [hcond.1, hcond.2]
  · rw [if_neg hcond]
    rcases Decidable.not_and_iff_or_not.mp hcond with hn | hn
    · simp [Bool.eq_false_iff.mpr hn]
    · have : (10 * nuniqueCells cs > 9 * nrows t) = False := by simpa using hn
      simp [this]

/-! ### C3: the identifier-column drop -/

theorem map_fst_filter (l : List (String × List Cell)) (q : String → Bool) :
    (l.filter (fun p => q p.1)).map Prod.fst = (l.map Prod.fst).filter q := by
  induction l with
  | nil => rfl
  | cons p l ih => by_cases hq : q p.1 <;> simp [List.filter_cons, hq, ih]

/-- C3 (amended): on a table whose first column is not named `id`, `preprocess`
drops exactly the columns named `id` or `unnamed: 0` — the literal with a space
of line 131, not the normalized form `unnamed:_0` — wherever they appear. -/
theorem preprocess_drop_amended (t : Table) (first : String) (rest : List String)
    (hnames : colNames t = first :: rest) (hfirst : first ≠ "id")
    (u : Table) (h : preprocess t = some u) :
    colNames u = (colNames t).filter (fun c => !(c == "id" || c == "unnamed: 0")) := by
  obtain ⟨t1, he, hu⟩ := preprocess_eq t u h
  obtain ⟨cs, cs1, hg, hec, ht1⟩ := encodeDiag_eq t t1 he
  have hn1 : colNames t1 = colNames t := by rw [ht1]; exact colNames_setCol t "diagnosis" cs1
  subst hu
  rw [colNames_coerceFeatures, colNames_replaceSentinels]
  unfold dropIdCols
  rw [hn1, hnames]
  dsimp only
  rw [if_neg hfirst]
  by_cases hemp : ((first :: rest).filter (fun c => c == "id" || c == "unnamed: 0")).isEmpty = true
  · rw [if_pos hemp]
    rw [hn1, hnames]
    rw [List.isEmpty_iff, List.filter_eq_nil_iff] at hemp
    exact (List.filter_eq_self.mpr (fun c hc => by
      have := hemp c hc
      simpa using this)).symm
  · rw [if_neg hemp]
    have hmf := map_fst_filter t1.cols (fun c => !(c == "id" || c == "unnamed: 0"))
    have hcn : colNames t1 = first :: rest := hn1.trans hnames
    show (t1.cols.filter (fun p => !(p.1 == "id" || p.1 == "unnamed: 0"))).map Prod.fst = _
    rw [hmf]
    show (colNames t1).filter _ = _
    rw [hcn]

/-- C3 amended witness: with first column `x`, the columns literally named
`unnamed: 0` and `id` are dropped, all others kept. -/
theorem preprocess_drop_amended_witness :
    colNames ⟨[("x", [Cell.num 1]), ("diagnosis", [Cell.num 0])]⟩ =
      (colNames ⟨[("x", [Cell.num 1]), ("unnamed: 0", [Cell.num 2]),
                  ("id", [Cell.num 3]), ("diagnosis", [Cell.num 0])]⟩).filter
        (fun c => !(c == "id" || c == "unnamed: 0")) :=
  preprocess_drop_amended
    ⟨[("x", [Cell.num 1]), ("unnamed: 0", [Cell.num 2]),
      ("id", [Cell.num 3]), ("diagnosis", [Cell.num 0])]⟩
    "x" ["unnamed: 0", "id", "diagnosis"] (by decide) (by decide)
    ⟨[("x", [Cell.num 1]), ("diagnosis", [Cell.num 0])]⟩ rfl

/-! ### C8: what a successful `preprocess` call does to its input -/

/-- C8 (amended): `preprocess` mutates exactly the diagnosis column of its
input.  After a successful call the caller's table `t1` has the same column
names as `t`, every non-diagnosis column unchanged, and its diagnosis column
holds the encoded labels. -/
theorem preprocess_input_after (t res t1 : Table) (h : preprocessRun t = some (res, t1)) :
    colNames t1 = colNames t ∧
    (∀ nm, nm ≠ "diagnosis" → getCol t1 nm = getCol t nm) ∧
    (∃ cs cs1, getCol t "diagnosis" = some cs ∧ encodeDiagCells cs = some cs1 ∧
      t1 = setCol t "diagnosis" cs1) := by
  have he : encodeDiag t = some t1 := by
    unfold preprocessRun at h
    cases hed : encodeDiag t with
    | none => rw [hed] at h; cases h
    | some s =>
      rw [hed] at h
      simp at h
      rw [h.2]
  obtain ⟨cs, cs1, hg, hec, ht1⟩ := encodeDiag_eq t t1 he
  subst ht1
  exact ⟨colNames_setCol t "diagnosis" cs1,
    fun nm hnm => getCol_setCol_ne t "diagnosis" nm cs1 hnm,
    cs, cs1, hg, hec, rfl⟩

/-- C8 amended witness: on a concrete call the input keeps its names and its
non-diagnosis column. -/
theorem preprocess_input_after_witness :
    colNames ⟨[("a", [Cell.num 2]), ("diagnosis", [Cell.num 0])]⟩ =
      colNames ⟨[("a", [Cell.num 2]), ("diagnosis", [Cell.str "B"])]⟩ ∧
    getCol ⟨[("a", [Cell.num 2]), ("diagnosis", [Cell.num 0])]⟩ "a" =
      getCol ⟨[("a", [Cell.num 2]), ("diagnosis", [Cell.str "B"])]⟩ "a" :=
  ⟨(preprocess_input_after ⟨[("a", [Cell.num 2]), ("diagnosis", [Cell.str "B"])]⟩
      ⟨[("a", [Cell.num 2]), ("diagnosis", [Cell.num 0])]⟩
      ⟨[("a", [Cell.num 2]), ("diagnosis", [Cell.num 0])]⟩ rfl).1,
   (preprocess_input_after ⟨[("a", [Cell.num 2]), ("diagnosis", [Cell.str "B"])]⟩
      ⟨[("a", [Cell.num 2]), ("diagnosis", [Cell.num 0])]⟩
      ⟨[("a", [Cell.num 2]), ("diagnosis", [Cell.num 0])]⟩ rfl).2.1 "a" (by decide)⟩

/-- C5 witness: a near-unique all-numeric first column (`Sample ID`, normalized
to `sample_id`) is renamed to `id`; all hypotheses hold at the concrete table. -/
theorem normalize_id_heuristic_witness :
    normalizeTable ⟨[("Sample ID", [Cell.num 1, Cell.num 2, Cell.num 3]),
                     ("Diagnosis", [Cell.str "M", Cell.str "B", Cell.str "M"])]⟩ =
      .ok ⟨[("id", [Cell.num 1, Cell.num 2, Cell.num 3]),
            ("diagnosis", [Cell.str "M", Cell.str "B", Cell.str "M"])]⟩ := by
  have h := normalize_id_heuristic
    ⟨[("Sample ID", [Cell.num 1, Cell.num 2, Cell.num 3]),
      ("Diagnosis", [Cell.str "M", Cell.str "B", Cell.str "M"])]⟩
    "sample_id" ["diagnosis"] (by decide) (by decide) (by decide)
    [Cell.num 1, Cell.num 2, Cell.num 3] (by decide)
  rw [if_pos ⟨by decide, by decide⟩] at h
  rw [h]
  rfl

/-! ### C6: sentinel normalization -/

/-- Whether a cell is one of the four missing-value sentinels of line 136. -/
def isSentinelCell (c : Cell) : Bool :=
  match c with
  | .str s => s == "?" || s == "NA" || s == "null" || s == "None"
  | _ => false

/-- C6: on a successful `preprocess` run, every surviving feature column comes
out cell-by-cell as sentinel-replacement followed by numeric coercion; a cell
that is exactly one of the four sentinels becomes the absent marker, and the
sentinel-replacement step alters no other cell. -/
theorem preprocess_sentinels (t u : Table) (h : preprocess t = some u)
    (nm : String) (h1 : nm ≠ "diagnosis") (h2 : nm ≠ "id") (h3 : nm ≠ "unnamed: 0")
    (cs : List Cell) (hcs : getCol t nm = some cs) :
    getCol u nm = some (cs.map (fun c => toNumericCell (replaceSentinelCell c))) ∧
    (∀ c, isSentinelCell c = true → replaceSentinelCell c = Cell.na) ∧
    (∀ c, isSentinelCell c = false → replaceSentinelCell c = c) := by
  refine ⟨?_, ?_, ?_⟩
  · obtain ⟨t1, he, hu⟩ := preprocess_eq t u h
    obtain ⟨ds, ds1, hg, hec, ht1⟩ := encodeDiag_eq t t1 he
    have hc1 : getCol t1 nm = some cs := by
      rw [ht1, getCol_setCol_ne t "diagnosis" nm ds1 h1]
      exact hcs
    have hc2 : getCol (dropIdCols t1) nm = some cs := by
      rw [getCol_dropIdCols_ne t1 nm h2 h3]
      exact hc1
    subst hu
    rw [getCol_coerceFeatures_ne _ nm h1, getCol_replaceSentinels, hc2]
    simp [List.map_map, Function.comp]
  · intro c hc
    cases c with
    | str s =>
      have hs : ((s = "?" ∨ s = "NA") ∨ s = "null") ∨ s = "None" := by
        simpa [isSentinelCell] using hc
      rcases hs with ((h | h) | h) | h <;> simp [replaceSentinelCell, h]
    | num q => simp [isSentinelCell] at hc
    | na => simp [isSentinelCell] at hc
  · intro c hc
    cases c with
    | str s =>
      have hs : ((¬s = "?" ∧ ¬s = "NA") ∧ ¬s = "null") ∧ ¬s = "None" := by
        simpa [isSentinelCell] using hc
      simp [replaceSentinelCell, hs.1.1.1, hs.1.1.2, hs.1.2, hs.2]
    | num q => rfl
    | na => rfl

/-- C6 witness: a `"?"` cell of a surviving feature column is absent in the
clean table, at a concrete input. -/
theorem preprocess_sentinels_witness :
    getCol ⟨[("f", [Cell.na, Cell.num 3]), ("diagnosis", [Cell.num 1])]⟩ "f" =
      some [Cell.na, Cell.num 3] ∧
    replaceSentinelCell (Cell.str "?") = Cell.na :=
  ⟨(preprocess_sentinels ⟨[("f", [Cell.str "?", Cell.num 3]), ("diagnosis", [Cell.num 1])]⟩
      ⟨[("f", [Cell.na, Cell.num 3]), ("diagnosis", [Cell.num 1])]⟩ rfl
      "f" (by decide) (by decide) (by decide) [Cell.str "?", Cell.num 3] (by decide)).1,
   (preprocess_sentinels ⟨[("f", [Cell.str "?", Cell.num 3]), ("diagnosis", [Cell.num 1])]⟩
      ⟨[("f", [Cell.na, Cell.num 3]), ("diagnosis", [Cell.num 1])]⟩ rfl
      "f" (by decide) (by decide) (by decide) [Cell.str "?", Cell.num 3] (by decide)).2.1
     (Cell.str "?") (by decide)⟩

/-! ### C7: numeric coercion never fails the pipeline -/

/-- C7: whenever the label encoding succeeds, `preprocess` completes
successfully no matter what the feature cells hold; the coercion stage maps
every non-diagnosis column cell-wise, keeping every value that parses as a
number and degrading every unparseable string to the absent marker. -/
theorem preprocess_coercion_total (t t1 : Table) (h : encodeDiag t = some t1) :
    preprocess t = some (coerceFeatures (replaceSentinels (dropIdCols t1))) ∧
    (∀ nm cs, nm ≠ "diagnosis" → getCol (replaceSentinels (dropIdCols t1)) nm = some cs →
      getCol (coerceFeatures (replaceSentinels (dropIdCols t1))) nm =
        some (cs.map toNumericCell)) ∧
    (∀ s q, parseNum s = some q → toNumericCell (Cell.str s) = Cell.num q) ∧
    (∀ s, parseNum s = none → toNumericCell (Cell.str s) = Cell.na) := by
  refine ⟨?_, ?_, ?_, ?_⟩
  · unfold preprocess preprocessRun
    rw [h]
    rfl
  · intro nm cs hnm hcs
    rw [getCol_coerceFeatures_ne _ nm hnm, hcs]
    rfl
  · intro s q hp
    unfold toNumericCell
    dsimp only
    rw [hp]
  · intro s hp
    unfold toNumericCell
    dsimp only
    rw [hp]

/-- C7 witness: with a valid numeric label, a table whose feature column holds
an unparseable string and a parseable one completes preprocessing; `"2.5"` is
kept as 5/2 and `"abc"` degrades to the absent marker. -/
theorem preprocess_coercion_total_witness :
    preprocess ⟨[("f", [Cell.str "abc", Cell.str "2.5"]), ("diagnosis", [Cell.num 1])]⟩ =
      some (coerceFeatures (replaceSentinels (dropIdCols
        ⟨[("f", [Cell.str "abc", Cell.str "2.5"]), ("diagnosis", [Cell.num 1])]⟩))) ∧
    toNumericCell (Cell.str "2.5") = Cell.num (5 / 2) ∧
    toNumericCell (Cell.str "abc") = Cell.na :=
  ⟨(preprocess_coercion_total
      ⟨[("f", [Cell.str "abc", Cell.str "2.5"]), ("diagnosis", [Cell.num 1])]⟩
      ⟨[("f", [Cell.str "abc", Cell.str "2.5"]), ("diagnosis", [Cell.num 1])]⟩ rfl).1,
   (preprocess_coercion_total
      ⟨[("f", [Cell.str "abc", Cell.str "2.5"]), ("diagnosis", [Cell.num 1])]⟩
      ⟨[("f", [Cell.str "abc", Cell.str "2.5"]), ("diagnosis", [Cell.num 1])]⟩ rfl).2.2.1
     "2.5" (5 / 2) (by
       have h : parseNum "2.5" = some ((2 : ℚ) + (5 : ℚ) / 10 ^ (1 : ℕ)) := rfl
       rw [h]
       norm_num),
   (preprocess_coercion_total
      ⟨[("f", [Cell.str "abc", Cell.str "2.5"]), ("diagnosis", [Cell.num 1])]⟩
      ⟨[("f", [Cell.str "abc", Cell.str "2.5"]), ("diagnosis", [Cell.num 1])]⟩ rfl).2.2.2
     "abc" rfl⟩

/-! ### C9: re-running the pipeline on a clean table -/

theorem setCol_not_mem (l : List (String × List Cell)) (nm : String) (cs : List Cell)
    (h : nm ∉ l.map Prod.fst) :
    l.map (fun p => if p.1 = nm then (p.1, cs) else p) = l := by
  induction l with
  | nil => rfl
  | cons q l ih =>
    have h1 : nm ≠ q.1 ∧ nm ∉ l.map Prod.fst := by simpa using h
    have hq : ¬q.1 = nm := fun e => h1.1 e.symm
    simp [hq, ih h1.2]

theorem setCol_list_self (l : List (String × List Cell)) (nm : String) (cs : List Cell)
    (hnd : (l.map Prod.fst).Nodup)
    (hg : (l.find? (fun p => p.1 == nm)).map Prod.snd = some cs) :
    l.map (fun p => if p.1 = nm then (p.1, cs) else p) = l := by
  induction l with
  | nil => simp at hg
  | cons q l ih =>
    simp only [List.map_cons, List.nodup_cons] at hnd
    by_cases hq : q.1 = nm
    · rw [List.find?_cons_of_pos _ (by simp [hq])] at hg
      simp only [Option.map_some'] at hg
      have hcs : q.2 = cs := by simpa using hg
      subst hcs
      rw [List.map_cons, if_pos hq, setCol_not_mem l nm q.2 (hq ▸ hnd.1)]
    · rw [List.find?_cons_of_neg _ (by simp [hq])] at hg
      rw [List.map_cons, if_neg hq, ih hnd.2 hg]

/-- On a table with unique labels, writing a column back with the very cells it
already holds is the identity. -/
theorem setCol_self (t : Table) (nm : String) (cs : List Cell)
    (hnd : (colNames t).Nodup) (hg : getCol t nm = some cs) : setCol t nm cs = t := by
  unfold setCol
  rw [setCol_list_self t.cols nm cs hnd hg]

theorem find?_nodup_mem (l : List (String × List Cell)) (hnd : (l.map Prod.fst).Nodup)
    (p : String × List Cell) (hp : p ∈ l) : l.find? (fun q => q.1 == p.1) = some p := by
  induction l with
  | nil => cases hp
  | cons q l ih =>
    simp only [List.map_cons, List.nodup_cons] at hnd
    rcases List.mem_cons.mp hp with h | h
    · subst h
      rw [List.find?_cons_of_pos _ (by simp)]
    · have hmem : p.1 ∈ l.map Prod.fst := List.mem_map.mpr ⟨p, h, rfl⟩
      have hne : ¬q.1 = p.1 := fun e => hnd.1 (e ▸ hmem)
      rw [List.find?_cons_of_neg _ (by simp [hne])]
      exact ih hnd.2 h

theorem astypeIntCells_id (cs : List Cell) (h : ∀ c ∈ cs, astypeIntCell c = some c) :
    astypeIntCells cs = some cs := by
  induction cs with
  | nil => rfl
  | cons c cs ih =>
    have hc := h c (List.mem_cons_self c cs)
    have ht := ih (fun x hx => h x (List.mem_cons_of_mem c hx))
    unfold astypeIntCells
    rw [hc, ht]

theorem replaceSentinels_id (t : Table) (h : ∀ p ∈ t.cols, isNumericCells p.2 = true) :
    replaceSentinels t = t := by
  unfold replaceSentinels
  have hmap : t.cols.map (fun p => (p.1, p.2.map replaceSentinelCell)) = t.cols.map id := by
    apply List.map_congr_left
    intro p hp
    have hcells : p.2.map replaceSentinelCell = p.2.map id := by
      apply List.map_congr_left
      intro c hc
      have := List.all_eq_true.mp (h p hp) c hc
      cases c with
      | str s => simp [isNonStr] at this
      | num q => rfl
      | na => rfl
    simp only [hcells, List.map_id]
    rfl
  rw [hmap, List.map_id]

theorem coerceFeatures_id (t : Table) (h : ∀ p ∈ t.cols, isNumericCells p.2 = true) :
    coerceFeatures t = t := by
  unfold coerceFeatures
  have hmap : t.cols.map (fun p => if p.1 = "diagnosis" then p else (p.1, p.2.map toNumericCell)) =
      t.cols.map id := by
    apply List.map_congr_left
    intro p hp
    by_cases hd : p.1 = "diagnosis"
    · simp [hd]
    · have hcells : p.2.map toNumericCell = p.2.map id := by
        apply List.map_congr_left
        intro c hc
        have := List.all_eq_true.mp (h p hp) c hc
        cases c with
        | str s => simp [isNonStr] at this
        | num q => rfl
        | na => rfl
      rw [if_neg hd, hcells, List.map_id]
      rfl
  rw [hmap, List.map_id]

/-- C9 (amended): on an already-clean table — diagnosis integers in 0/1, no
`id` column, numeric-or-absent features — with unique, already-normalized
column names and whose first column does not satisfy the identifier heuristic,
re-running normalization+preprocessing succeeds and returns the very same
table; in particular the column set is unchanged.  (Pipeline outputs always
have unique normalized names, and the heuristic hypothesis is forced by the
counterexample: a clean table whose first column passes it loses its diagnosis
column to the rename and the re-run aborts.) -/
theorem rerun_clean_fixed (t : Table)
    (hclean : isCleanTable t = true)
    (hnodup : (colNames t).Nodup)
    (hfix : ∀ nm ∈ colNames t, normName nm = nm)
    (hheur : idTestOutcome t = .ok false) :
    rerunPipeline t = some t := by
  cases hg : getCol t "diagnosis" with
  | none =>
    unfold isCleanTable at hclean
    rw [hg] at hclean
    simp at hclean
  | some cs =>
  unfold isCleanTable at hclean
  rw [hg] at hclean
  simp only [Bool.and_eq_true] at hclean
  obtain ⟨⟨h01, hnoid⟩, hfeat⟩ := hclean
  have hdiagmem : "diagnosis" ∈ colNames t := getCol_some_mem t "diagnosis" cs hg
  have hidnotmem : "id" ∉ colNames t := by simpa using hnoid
  have hren : renameCols t = t := renameCols_eq_self t hfix
  have hunnamed : "unnamed: 0" ∉ colNames t := by
    intro hmem
    have hcontra := hfix _ hmem
    have hne : normName "unnamed: 0" ≠ "unnamed: 0" := by decide
    exact hne hcontra
  have hnorm : normalizeTable t = .ok t := by
    unfold normalizeTable normalizeTableWith
    rw [hren, if_pos hdiagmem]
    cases hc : colNames t with
    | nil => exact absurd (hc ▸ hdiagmem) (List.not_mem_nil _)
    | cons first rest =>
      have hfirst : first ≠ "id" := by
        intro e
        apply hidnotmem
        rw [hc, e]
        exact List.mem_cons_self _ _
      dsimp only
      rw [if_neg hfirst, hheur]
      rfl
  have h01' : ∀ c ∈ cs, c = Cell.num 0 ∨ c = Cell.num 1 := by
    intro c hc
    have := List.all_eq_true.mp h01 c hc
    simpa using this
  have hast : ∀ c ∈ cs, astypeIntCell c = some c := by
    intro c hc
    rcases h01' c hc with e | e <;> subst e <;> rfl
  have hnumcs : isNumericCells cs = true := by
    unfold isNumericCells
    rw [List.all_eq_true]
    intro c hc
    rcases h01' c hc with e | e <;> subst e <;> rfl
  have henc : encodeDiagCells cs = some cs := by
    unfold encodeDiagCells
    rw [if_pos hnumcs]
    exact astypeIntCells_id cs hast
  have hset : setCol t "diagnosis" cs = t := setCol_self t "diagnosis" cs hnodup hg
  have hencD : encodeDiag t = some t := by
    unfold encodeDiag
    rw [hg]
    simp [henc, hset]
  have hallnum : ∀ p ∈ t.cols, isNumericCells p.2 = true := by
    intro p hp
    have hor := List.all_eq_true.mp hfeat p hp
    rcases (Bool.or_eq_true _ _).mp hor with hd | hn
    · have hp1 : p.1 = "diagnosis" := by simpa using hd
      have hfind : t.cols.find? (fun q => q.1 == p.1) = some p :=
        find?_nodup_mem t.cols hnodup p hp
      have hgp : getCol t p.1 = some p.2 := by
        unfold getCol
        rw [hfind]
        rfl
      rw [hp1, hg] at hgp
      have hpc : p.2 = cs := by simpa using hgp.symm
      rw [hpc]
      exact hnumcs
    · exact hn
  have hreps : replaceSentinels t = t := replaceSentinels_id t hallnum
  have hcoer : coerceFeatures t = t := coerceFeatures_id t hallnum
  have hdrop : dropIdCols t = t := by
    unfold dropIdCols
    cases hc : colNames t with
    | nil => rfl
    | cons first rest =>
      have hfirst : first ≠ "id" := by
        intro e
        apply hidnotmem
        rw [hc, e]
        exact List.mem_cons_self _ _
      have hemp : ((first :: rest).filter (fun c => c == "id" || c == "unnamed: 0")) = [] := by
        rw [List.filter_eq_nil_iff]
        intro c hcmem
        intro hcc
        rcases (Bool.or_eq_true _ _).mp hcc with e | e
        · have hce : c = "id" := by simpa using e
          exact hidnotmem (by rw [hc]; exact hce ▸ hcmem)
        · have hce : c = "unnamed: 0" := by simpa using e
          exact hunnamed (by rw [hc]; exact hce ▸ hcmem)
      dsimp only
      rw [if_neg hfirst, if_pos (by rw [hemp]; rfl)]
  unfold rerunPipeline
  rw [hnorm]
  dsimp only
  unfold preprocess preprocessRun
  rw [hencD]
  simp [hdrop, hreps, hcoer]

/-- C9 amended witness: all hypotheses hold at a concrete clean 3-row table
(first column `diagnosis` with two distinct values — the heuristic fails) and
the re-run returns the table unchanged. -/
theorem rerun_clean_fixed_witness :
    rerunPipeline ⟨[("diagnosis", [Cell.num 0, Cell.num 1, Cell.num 0]),
                    ("radius_mean", [Cell.num 1, Cell.num 1, Cell.num 2])]⟩ =
      some ⟨[("diagnosis", [Cell.num 0, Cell.num 1, Cell.num 0]),
             ("radius_mean", [Cell.num 1, Cell.num 1, Cell.num 2])]⟩ :=
  rerun_clean_fixed
    ⟨[("diagnosis", [Cell.num 0, Cell.num 1, Cell.num 0]),
      ("radius_mean", [Cell.num 1, Cell.num 1, Cell.num 2])]⟩
    (by decide) (by decide) (by decide) rfl

/-! ### C4: headerless loading and row widths -/

theorem colNames_mkEnum (names : List String) (g : Nat × String → List Cell) :
    colNames ⟨names.enum.map (fun p => (p.2, g p))⟩ = names := by
  unfold colNames
  rw [List.map_map]
  have hfun : (Prod.fst ∘ fun p : Nat × String => (p.2, g p)) =
      (Prod.snd : Nat × String → String) := by
    funext p
    rfl
  rw [hfun, List.enum_map_snd]

theorem readCsvNoHeader_nil (names : List String) :
    readCsvNoHeader names [] = .error () := rfl

theorem readCsvNoHeader_err (names : List String) (r0 : List String)
    (rest : List (List String))
    (hw : ((r0 :: rest).any (fun r => decide (r0.length < r.length))) = true) :
    readCsvNoHeader names (r0 :: rest) = .error () := by
  unfold readCsvNoHeader
  dsimp only
  rw [if_pos hw]

theorem readCsvNoHeader_ok (names : List String) (r0 : List String)
    (rest : List (List String))
    (hw : ((r0 :: rest).any (fun r => decide (r0.length < r.length))) = false) :
    readCsvNoHeader names (r0 :: rest) = .ok ⟨names.enum.map (fun p =>
      (p.2, (r0 :: rest).map (fun r =>
        match r.get? (r0.length - names.length + p.1) with
        | some f => parseField f
        | none => Cell.na)))⟩ := by
  unfold readCsvNoHeader
  dsimp only
  rw [if_neg (by simp [hw])]

/-- Any table whose columns are the official names normalizes to itself: the
names are already normalized, `diagnosis` is present and the first name is
`id`, so the heuristic never fires. -/
theorem normalizeTable_official (t : Table) (h : colNames t = COLUMN_NAMES) :
    normalizeTable t = .ok t := by
  have hfix : ∀ nm ∈ colNames t, normName nm = nm := by
    rw [h]
    decide
  have hren : renameCols t = t := renameCols_eq_self t hfix
  unfold normalizeTable normalizeTableWith
  rw [hren, h]
  rw [if_pos (by decide : "diagnosis" ∈ COLUMN_NAMES)]
  unfold COLUMN_NAMES
  dsimp only
  rfl

/-- C4 (amended): loading a headerless `.data` member fails iff the member is
empty or some row has more fields than the first row — uniformly short rows are
padded with the absent marker rather than rejected; and whenever every row has
exactly 32 fields, loading succeeds and the fixed 32-name sequence is assigned
positionally, column `j` holding the parsed field `j` of every row. -/
theorem load_wbcd_data_amended (rows : List (List String)) :
    ((isOkE (load_wbcd_data rows) = true) ↔
      (∃ r0 rest, rows = r0 :: rest ∧ ∀ r ∈ rows, r.length ≤ r0.length)) ∧
    (∀ r0 rest, rows = r0 :: rest → (∀ r ∈ rows, r.length = 32) →
      load_wbcd_data rows =
        .ok ⟨COLUMN_NAMES.enum.map (fun p =>
          (p.2, rows.map (fun r => parseField (r.getD p.1 ""))))⟩) := by
  constructor
  · cases rows with
    | nil =>
      constructor
      · intro h
        have hfalse : isOkE (load_wbcd_data []) = false := rfl
        rw [hfalse] at h
        cases h
      · rintro ⟨r0, rest, heq, -⟩
        cases heq
    | cons r0 rest =>
      by_cases hw : (((r0 :: rest).any (fun r => decide (r0.length < r.length))) = true)
      · have hload : load_wbcd_data (r0 :: rest) = .error () := by
          unfold load_wbcd_data
          rw [readCsvNoHeader_err COLUMN_NAMES r0 rest hw]
          rfl
        constructor
        · intro h
          rw [hload] at h
          cases h
        · rintro ⟨r0f, restf, heq, hle⟩
          injection heq with h1 h2
          subst h1
          subst h2
          rw [List.any_eq_true] at hw
          obtain ⟨r, hr, hlt⟩ := hw
          have hle1 := hle r hr
          simp at hlt
          omega
      · have hwf : ((r0 :: rest).any (fun r => decide (r0.length < r.length))) = false :=
          Bool.eq_false_iff.mpr hw
        have hok := readCsvNoHeader_ok COLUMN_NAMES r0 rest hwf
        have hnames := colNames_mkEnum COLUMN_NAMES
          (fun p => (r0 :: rest).map (fun r =>
            match r.get? (r0.length - COLUMN_NAMES.length + p.1) with
            | some f => parseField f
            | none => Cell.na))
        have hload : load_wbcd_data (r0 :: rest) = .ok ⟨COLUMN_NAMES.enum.map (fun p =>
            (p.2, (r0 :: rest).map (fun r =>
              match r.get? (r0.length - COLUMN_NAMES.length + p.1) with
              | some f => parseField f
              | none => Cell.na)))⟩ := by
          unfold load_wbcd_data
          rw [hok]
          exact normalizeTable_official _ hnames
        constructor
        · intro _
          refine ⟨r0, rest, rfl, fun r hr => ?_⟩
          by_contra hgt
          apply hw
          rw [List.any_eq_true]
          exact ⟨r, hr, by simp; omega⟩
        · intro _
          rw [hload]
          rfl
  · intro r0 rest heq hlen
    subst heq
    have h32 : r0.length = 32 := hlen r0 (List.mem_cons_self _ _)
    have hwf : ((r0 :: rest).any (fun r => decide (r0.length < r.length))) = false := by
      rw [List.any_eq_false]
      intro r hr
      have := hlen r hr
      simp
      omega
    have hok := readCsvNoHeader_ok COLUMN_NAMES r0 rest hwf
    have hT : (⟨COLUMN_NAMES.enum.map (fun p =>
        (p.2, (r0 :: rest).map (fun r =>
          match r.get? (r0.length - COLUMN_NAMES.length + p.1) with
          | some f => parseField f
          | none => Cell.na)))⟩ : Table) =
        ⟨COLUMN_NAMES.enum.map (fun p =>
          (p.2, (r0 :: rest).map (fun r => parseField (r.getD p.1 ""))))⟩ := by
      congr 1
      apply List.map_congr_left
      intro p hp
      have hplt : p.1 < COLUMN_NAMES.length := by
        have hmem := List.mem_enum_iff_getElem?.mp hp
        obtain ⟨hlt, -⟩ := List.getElem?_eq_some.mp hmem
        exact hlt
      have hskip : r0.length - COLUMN_NAMES.length = 0 := by
        have hc32 : COLUMN_NAMES.length = 32 := rfl
        omega
      congr 1
      apply List.map_congr_left
      intro r hr
      have hrlen : r.length = 32 := hlen r hr
      have hpr : p.1 < r.length := by
        have hc32 : COLUMN_NAMES.length = 32 := rfl
        omega
      rw [hskip, Nat.zero_add, List.get?_eq_getElem?, List.getElem?_eq_getElem hpr]
      have hgetd : r.getD p.1 "" = r[p.1] := by
        rw [List.getD_eq_getElem?_getD, List.getElem?_eq_getElem hpr]
        rfl
      rw [hgetd]
    unfold load_wbcd_data
    rw [hok, hT]
    exact normalizeTable_official _ (colNames_mkEnum COLUMN_NAMES _)

/-- A member row with the full 32 fields. -/
def fullRow : List String :=
  ["842302", "M", "1", "2", "3", "4", "5", "6", "7", "8", "9", "10",
   "11", "12", "13", "14", "15", "16", "17", "18", "19", "20",
   "21", "22", "23", "24", "25", "26", "27", "28", "29", "30"]

/-- C4 amended witness: a one-row member of exactly 32 fields loads
successfully and the names are assigned positionally. -/
theorem load_wbcd_data_amended_witness :
    isOkE (load_wbcd_data [fullRow]) = true ∧
    load_wbcd_data [fullRow] = .ok ⟨COLUMN_NAMES.enum.map (fun p =>
      (p.2, [fullRow].map (fun r => parseField (r.getD p.1 ""))))⟩ :=
  ⟨(load_wbcd_data_amended [fullRow]).1.mpr ⟨fullRow, [], rfl, by decide⟩,
   (load_wbcd_data_amended [fullRow]).2 fullRow [] rfl (by decide)⟩
